import Mathlib

/-!
Verification of the natural-language specification of the SQL-chatbot
pipeline (`app.py`) against a shallow embedding of its code.

Strings are modelled as `List Char`.  Python's `str.lower` is modelled by
`Char.toLower` (the claims only involve ASCII), `str.strip` by removing the
ASCII whitespace characters from both ends, and `re.sub(pat, "", s)` by a
left-to-right scan that removes each non-overlapping occurrence of the
pattern and continues after it — exactly the semantics of `re.sub`.
External services (the LLM client, the database engine, pandas rendering)
are modelled as oracle functions supplied in an environment: an LLM call or
a database execution either returns a value (`some`) or raises (`none`).
-/

set_option maxRecDepth 20000

/-- Convert a string literal to the `List Char` representation used throughout. -/
def ofStr (s : String) : List Char := s.toList

/-- The backtick character. -/
def btick : Char := Char.ofNat 96

def isTick (c : Char) : Bool := c == btick

/-- ASCII whitespace, the character class removed by Python's `str.strip()`. -/
def isSpace (c : Char) : Bool :=
  (c == ' ') || (c == '\t') || (c == '\n') || (c == '\r') ||
  (c == Char.ofNat 11) || (c == Char.ofNat 12)

/-- Remove trailing characters satisfying `f`. -/
def dropTrailing (f : Char → Bool) (l : List Char) : List Char :=
  (l.reverse.dropWhile f).reverse

/-- Python's `str.strip()`: remove leading and trailing whitespace. -/
def stripChars (l : List Char) : List Char :=
  dropTrailing isSpace (l.dropWhile isSpace)

/-- Python's `str.lower()` (ASCII fragment). -/
def lowerStr (l : List Char) : List Char := l.map Char.toLower

/-- `containsSub pat s` decides whether `pat` occurs as a contiguous substring of `s`. -/
def containsSub (pat : List Char) : List Char → Bool
  | [] => pat.isEmpty
  | c :: rest => pat.isPrefixOf (c :: rest) || containsSub pat rest

/-- Three consecutive backticks, the code-fence marker. -/
def fence3 : List Char := ofStr "```"

/-- Fuelled scanner for `re.sub(r"` ``sql` `", "", s, flags=re.IGNORECASE)` from
`clean_sql` (src/app.py line 66): scan left to right; on a (case-insensitive on
the letters) occurrence of the six-character fence-with-tag, drop it and
continue after it; otherwise keep the character and continue with the next
position.  The fuel only forces structural termination; with fuel at least the
length of the list it never runs out. -/
def removeSqlFenceF : Nat → List Char → List Char
  | _, [] => []
  | 0, l => l
  | n + 1, c :: rest =>
    match rest with
    | c2 :: c3 :: c4 :: c5 :: c6 :: rest2 =>
      if isTick c && isTick c2 && isTick c3 &&
         (c4.toLower == 's') && (c5.toLower == 'q') && (c6.toLower == 'l')
      then removeSqlFenceF n rest2
      else c :: removeSqlFenceF n rest
    | _ => c :: removeSqlFenceF n rest

/-- `re.sub(r"` ``sql` `", "", s, flags=re.IGNORECASE)` (src/app.py line 66). -/
def removeSqlFence (l : List Char) : List Char := removeSqlFenceF l.length l

/-- Fuelled scanner for `re.sub(r"` `` ``", "", s)` from `clean_sql` (src/app.py
line 67): remove every non-overlapping occurrence of three consecutive
backticks, scanning left to right. -/
def removeTicksF : Nat → List Char → List Char
  | _, [] => []
  | 0, l => l
  | n + 1, c :: rest =>
    match rest with
    | c2 :: c3 :: rest2 =>
      if isTick c && isTick c2 && isTick c3 then removeTicksF n rest2
      else c :: removeTicksF n rest
    | _ => c :: removeTicksF n rest

/-- `re.sub(r"` `` ``", "", s)` (src/app.py line 67). -/
def removeTicks (l : List Char) : List Char := removeTicksF l.length l

/-- `clean_sql` (src/app.py lines 60–68): remove the `sql`-tagged fences, then the
bare fences, then strip surrounding whitespace. -/
def clean_sql (sql_text : List Char) : List Char :=
  stripChars (removeTicks (removeSqlFence sql_text))

/-- Verdict of the Safety Gate. -/
inductive QueryVerdict where
  | Approved : QueryVerdict
  | Rejected : QueryVerdict
deriving DecidableEq

/-- `clean_query_check.startswith(("select", "with"))` (src/app.py lines 146–148). -/
def allowedStart (l : List Char) : Bool :=
  (ofStr "select").isPrefixOf l || (ofStr "with").isPrefixOf l

/-- The Safety Gate (src/app.py lines 144–150): lowercase, strip, and check the
leading keyword; an approved query may be executed, any other is rejected. -/
def classify (q : List Char) : QueryVerdict :=
  if allowedStart (stripChars (lowerStr q)) then .Approved else .Rejected

/-- Helper used by the step lemmas: does the list start with the six-character
case-insensitive fence-with-tag? -/
def fenceSqlAt : List Char → Bool
  | c :: c2 :: c3 :: c4 :: c5 :: c6 :: _ =>
    isTick c && isTick c2 && isTick c3 &&
    (c4.toLower == 's') && (c5.toLower == 'q') && (c6.toLower == 'l')
  | _ => false

/-- Helper used by the step lemmas: does the list start with three backticks? -/
def fence3At : List Char → Bool
  | c :: c2 :: c3 :: _ => isTick c && isTick c2 && isTick c3
  | _ => false

/-- Concatenate a list of lists. -/
def catLists {α : Type} : List (List α) → List α
  | [] => []
  | x :: xs => x ++ catLists xs

/-! ### Prompt builder and SQL generator -/

/-- Fixed intro block of the generation prompt (src/app.py lines 72–75),
up to the interpolated schema. -/
def gpIntro : List Char :=
  ofStr "\nYou are an expert PostgreSql Data Analyst.\n\nHere is the database schema:\n"

/-- Fixed text of the generation prompt between the schema and the question
(src/app.py lines 77–78). -/
def gpTask : List Char :=
  ofStr "\n\nYour task is to write a SQL query that answers the following question:\n"

/-- Fixed block of SQL-dialect rules that closes the generation prompt
(src/app.py lines 81–91). -/
def gpRules : List Char :=
  ofStr "\n\nCRITICAL RULES:\n1. The tables were created via pandas and are Case-Sensitive.\n2. ALWAYS surround ALL table names and column names with double quotes (e.g., \"Customer\", \"CustomerId\").\n3. If joining tables with identical column names (e.g., \"FirstName\"), ALWAYS use Aliases to make them unique (e.g., \"EmployeeFirstName\", \"CustomerFirstName\").\n4. Return ONLY the SQL query without any Markdown formatting, explanations, or comments.\n5. POSTGRES TYPE CASTING (VERY IMPORTANT):\n   - Since tables were loaded from CSV/Pandas, columns might be TEXT.\n   - For ANY date operations (EXTRACT, DATE_PART), you MUST cast the column: \"InvoiceDate\"::timestamp.\n   - For ANY mathematical operations (+, -, *, SUM, AVG) on price/total columns, you MUST cast to numeric: \"Total\"::numeric or \"UnitPrice\"::numeric.\n   - Example: SUM(\"Total\"::numeric) or EXTRACT(YEAR FROM \"InvoiceDate\"::timestamp).\n"

/-- The f-string of `generate_sql_query` (src/app.py lines 72–91): the fixed
intro, the interpolated schema, the fixed task text, the interpolated user
question, and the fixed rules block, in that order. -/
def generate_prompt (user_question schema : List Char) : List Char :=
  gpIntro ++ schema ++ gpTask ++ user_question ++ gpRules

/-- A result row, as materialized by `pd.read_sql`: a list of rendered cells. -/
abbrev Row := List (List Char)

/-- `generate_sql_query` (src/app.py lines 71–98): build the prompt, invoke the
LLM (modelled as a function from the prompt to `some` response or `none` on
any invocation error), clean the response; on error report and return `""`. -/
def generate_sql_query (llm : List Char → Option (List Char))
    (user_question schema : List Char) : List Char :=
  match llm (generate_prompt user_question schema) with
  | some response => clean_sql response
  | none => []

/-! ### Answer synthesizer -/

/-- Fixed text of the summarization prompt before the question
(src/app.py lines 110–112). -/
def sp1 : List Char :=
  ofStr "\nYou are a professional Data Analyst.\nUser Question: "

/-- Fixed text of the summarization prompt between the question and the
rendered table (src/app.py lines 113–114). -/
def sp2 : List Char :=
  ofStr "\n\nBelow is a table containing the SQL query results (showing up to 15 rows):\n"

/-- Fixed instruction block that closes the summarization prompt
(src/app.py lines 116–122). -/
def sp3 : List Char :=
  ofStr "\n\nInstructions:\n1. Answer the user's question directly and clearly based on the data above.\n2. If the data contains numbers (like sales, totals, or counts), include them in your answer.\n3. If the result is a list of names, summarize them.\n4. Keep your tone professional and concise.\n"

/-- The summarization prompt of `get_natural_language_response` (src/app.py
lines 102–122): `data_df.head(15)` is rendered (pandas `to_markdown`, or
`to_string` as fallback, modelled by the opaque `render` argument) and spliced
between the fixed texts, together with the question. -/
def summaryPrompt (render : List Row → List Char) (question : List Char)
    (data_df : List Row) : List Char :=
  sp1 ++ question ++ sp2 ++ render (data_df.take 15) ++ sp3

/-- `get_natural_language_response` (src/app.py lines 101–128): invoke the LLM
on the summarization prompt; on any invocation error report and return the
fixed fallback answer. -/
def get_natural_language_response (llm : List Char → Option (List Char))
    (render : List Row → List Char) (question : List Char) (data_df : List Row) :
    List Char :=
  match llm (summaryPrompt render question data_df) with
  | some response => response
  | none => ofStr "Error generating response."

/-! ### The request pipeline -/

/-- The external collaborators of one request: the LLM client (a call either
returns text or raises), the database engine (`pd.read_sql` either returns the
materialized rows or raises), and the pandas table renderer. -/
structure Env where
  llm : List Char → Option (List Char)
  dbExec : List Char → Option (List Row)
  render : List Row → List Char

/-- Observable outcome of one button press: the SQL shown with `st.code`, the
queries actually sent to the database, the materialized result table, whether
the gate warning was shown, and the synthesized answer (`none` when the
Answer Synthesizer was not invoked). -/
structure PipeResult where
  sqlShown : List Char
  executed : List (List Char)
  resultRows : List Row
  warned : Bool
  answer : Option (List Char)

/-- The `__main__` request flow after the button press (src/app.py lines
138–166): generate the SQL, gate it, execute it only when approved (an
execution error yields the empty frame), and synthesize an answer only when
the result frame is non-empty. -/
def runPipeline (env : Env) (user_question schema : List Char) : PipeResult :=
  let sql := generate_sql_query env.llm user_question schema
  if classify sql = QueryVerdict.Approved then
    match env.dbExec sql with
    | some rows =>
        { sqlShown := sql, executed := [sql], resultRows := rows, warned := false,
          answer := if rows.isEmpty then none
            else some (get_natural_language_response env.llm env.render user_question rows) }
    | none =>
        { sqlShown := sql, executed := [sql], resultRows := [], warned := false,
          answer := none }
  else
    { sqlShown := sql, executed := [], resultRows := [], warned := true, answer := none }

/-! ### Schema introspector -/

/-- One catalog row: `(table_name, column_name)`. -/
abbrev SchemaRow := List Char × List Char

def nlc : Char := '\n'

/-- `f"Table: \x7btable_name\x7d\n"` (src/app.py line 44). -/
def tableHdr (t : List Char) : List Char := ofStr "Table: " ++ t ++ [nlc]

/-- `f"  - \x7bcolumn_name\x7d\n"` (src/app.py line 46). -/
def colLine (c : List Char) : List Char := ofStr "  - " ++ c ++ [nlc]

/-- The row loop of `get_schema` (src/app.py lines 38–46): `current` is
`current_table` (initially `None`), `acc` the string built so far; a row whose
table differs from the current one opens a new block (preceded by a blank line
except for the first block). -/
def schemaLoop : List SchemaRow → Option (List Char) → List Char → List Char
  | [], _, acc => acc
  | (t, c) :: rest, current, acc =>
    if some t ≠ current then
      schemaLoop rest (some t)
        (acc ++ (if current.isSome then [nlc] else []) ++ tableHdr t ++ colLine c)
    else
      schemaLoop rest current (acc ++ colLine c)

/-- `get_schema` (src/app.py lines 25–50) on the catalog rows returned by the
introspection query. -/
def get_schema (rows : List SchemaRow) : List Char := schemaLoop rows none []

/-- Spec-side decomposition of the catalog rows into maximal runs of
consecutive rows sharing a table name. -/
def chunks : List SchemaRow → List (List SchemaRow)
  | [] => []
  | x :: xs =>
    match chunks xs with
    | [] => [[x]]
    | [] :: rest => [x] :: rest
    | (y :: ys) :: rest =>
      if x.1 = y.1 then (x :: y :: ys) :: rest else [x] :: (y :: ys) :: rest

/-- Table name of a run (its first row's table). -/
def headTable : List SchemaRow → List Char
  | [] => []
  | x :: _ => x.1

/-- The column lines of a run, in order. -/
def colsOf (b : List SchemaRow) : List Char := catLists (b.map (fun p => colLine p.2))

/-- Spec-side rendering of one table block: header plus that run's columns. -/
def renderChunk : List SchemaRow → List Char
  | [] => []
  | x :: rest => tableHdr x.1 ++ colsOf (x :: rest)

/-- Join of the non-first blocks, each preceded by a blank line. -/
def tailJoin (bs : List (List Char)) : List Char :=
  catLists (bs.map (fun b => [nlc] ++ b))

/-- Spec-side rendering of a block list: blocks separated by blank lines. -/
def joinBlocks : List (List Char) → List Char
  | [] => []
  | b :: bs => b ++ tailJoin bs

/-- The tail of the row loop once a current table `t` is set: proof-side
unaccumulated form of `schemaLoop rows (some t) []`. -/
def schemaFrom (t : List Char) : List SchemaRow → List Char
  | [] => []
  | (t', c) :: rest =>
    if t' ≠ t then [nlc] ++ tableHdr t' ++ colLine c ++ schemaFrom t' rest
    else colLine c ++ schemaFrom t rest

/-- `schemaFrom` expressed on the chunk decomposition. -/
def schemaFromSpec (t : List Char) (rows : List SchemaRow) : List Char :=
  match chunks rows with
  | [] => []
  | b :: bs =>
    (if headTable b = t then colsOf b else [nlc] ++ renderChunk b) ++
      tailJoin (bs.map renderChunk)

/-! ### Example store (not present under src/) -/

/-- A few-shot example: a (question, SQL) pair. -/
structure FewShotExample where
  naturalQuestion : List Char
  sqlQuery : List Char
deriving DecidableEq

/-- Modelled from the spec: the state of the few-shot side file seen by the
Example Store (the spec's §4.2 `loadExamples`; no such code exists under
src/).  The file is missing, unparseable, or parses to a sequence of entries
each carrying optional `naturalQuestion` and `sqlQuery` fields. -/
inductive FewShotFile where
  | missing : FewShotFile
  | malformed : FewShotFile
  | parsed : List (Option (List Char) × Option (List Char)) → FewShotFile

/-- Modelled from the spec: an entry yields a usable example exactly when both
fields are present; entries missing either field are skipped individually. -/
def entryToExample : Option (List Char) × Option (List Char) → Option FewShotExample
  | (some q, some s) => some ⟨q, s⟩
  | _ => none

/-- Modelled from the spec: `loadExamples(path)` — the spec's §4.2 contract,
absent from src/.  Missing file ⇒ empty sequence, no warning; malformed file ⇒
empty sequence and a reported warning (the boolean); parsed file ⇒ the
well-formed entries in file order, skipping entries that miss either field. -/
def loadExamples : FewShotFile → List FewShotExample × Bool
  | .missing => ([], false)
  | .malformed => ([], true)
  | .parsed entries => (entries.filterMap entryToExample, false)

/-! ### Concrete inputs for witnesses -/

/-- Environment whose LLM always raises. -/
def envNoLlm : Env :=
  { llm := fun _ => none, dbExec := fun _ => none, render := fun _ => [] }

/-- Environment whose LLM returns `select 1` and whose database returns one row. -/
def envSel : Env :=
  { llm := fun _ => some (ofStr "select 1"),
    dbExec := fun _ => some [[ofStr "42"]],
    render := fun _ => [] }

/-- Three catalog rows over two tables. -/
def rowsEx : List SchemaRow :=
  [(ofStr "Album", ofStr "AlbumId"), (ofStr "Album", ofStr "Title"),
   (ofStr "Artist", ofStr "Name")]

/-! ## Theorems -/

/-- Claim C1: the Safety Gate approves a generated query string `q` exactly when
the lowercased, trimmed form of `q` starts with `select` or `with`, every other
string being rejected; and the verdict depends on nothing but the trimmed,
lowercased string. -/
theorem c1_safety_gate : ∀ q : List Char,
    ((classify q = QueryVerdict.Approved) ↔
      ((ofStr "select").isPrefixOf (stripChars (lowerStr q)) = true ∨
       (ofStr "with").isPrefixOf (stripChars (lowerStr q)) = true)) ∧
    ((classify q = QueryVerdict.Rejected) ↔
      ¬ ((ofStr "select").isPrefixOf (stripChars (lowerStr q)) = true ∨
         (ofStr "with").isPrefixOf (stripChars (lowerStr q)) = true)) ∧
    (∀ q' : List Char, stripChars (lowerStr q) = stripChars (lowerStr q') →
      classify q = classify q') := by
  intro q
  refine ⟨?_, ?_, ?_⟩
  · unfold classify allowedStart
    split
    · next h => simp only [Bool.or_eq_true] at h; exact ⟨fun _ => h, fun _ => rfl⟩
    · next h =>
      simp only [Bool.or_eq_true] at h
      exact ⟨fun hc => absurd hc (by simp), fun hc => absurd hc h⟩
  · unfold classify allowedStart
    split
    · next h =>
      simp only [Bool.or_eq_true] at h
      exact ⟨fun hc => absurd hc (by simp), fun hc => absurd h hc⟩
    · next h => simp only [Bool.or_eq_true] at h; exact ⟨fun _ => h, fun _ => rfl⟩
  · intro q' h
    unfold classify
    rw [h]

/-- Witness for C1 at concrete inputs: `"  SELECT 1"` and `"select 1"` have the
same trimmed lowercased form, hence the same verdict. -/
theorem c1_safety_gate_witness :
    classify (ofStr "  SELECT 1") = classify (ofStr "select 1") :=
  (c1_safety_gate (ofStr "  SELECT 1")).2.2 (ofStr "select 1") (by decide)

/-! ### Fuel irrelevance and unfolding equations for the two scanners -/

theorem removeTicksF_nil : ∀ n, removeTicksF n [] = [] := by
  intro n; cases n <;> rfl

theorem removeSqlFenceF_nil : ∀ n, removeSqlFenceF n [] = [] := by
  intro n; cases n <;> rfl

theorem removeTicksF_irrel : ∀ n m (l : List Char), l.length ≤ n → l.length ≤ m →
    removeTicksF n l = removeTicksF m l := by
  intro n
  induction n with
  | zero =>
    intro m l h1 _
    cases l with
    | nil => rw [removeTicksF_nil, removeTicksF_nil]
    | cons c rest => simp at h1
  | succ n ih =>
    intro m l h1 h2
    cases l with
    | nil => rw [removeTicksF_nil, removeTicksF_nil]
    | cons c rest =>
      cases m with
      | zero => simp at h2
      | succ m =>
        simp only [List.length_cons] at h1 h2
        rcases rest with _ | ⟨c2, _ | ⟨c3, rest2⟩⟩
        · show c :: removeTicksF n [] = c :: removeTicksF m []
          rw [removeTicksF_nil, removeTicksF_nil]
        · show c :: removeTicksF n [c2] = c :: removeTicksF m [c2]
          rw [ih m [c2] (by simp at h1 ⊢; omega) (by simp at h2 ⊢; omega)]
        · show (if isTick c && isTick c2 && isTick c3 then removeTicksF n rest2
                else c :: removeTicksF n (c2 :: c3 :: rest2)) =
               (if isTick c && isTick c2 && isTick c3 then removeTicksF m rest2
                else c :: removeTicksF m (c2 :: c3 :: rest2))
          split
          · exact ih m rest2 (by simp at h1 ⊢; omega) (by simp at h2 ⊢; omega)
          · rw [ih m (c2 :: c3 :: rest2) (by simp at h1 ⊢; omega) (by simp at h2 ⊢; omega)]

theorem removeSqlFenceF_irrel : ∀ n m (l : List Char), l.length ≤ n → l.length ≤ m →
    removeSqlFenceF n l = removeSqlFenceF m l := by
  intro n
  induction n with
  | zero =>
    intro m l h1 _
    cases l with
    | nil => rw [removeSqlFenceF_nil, removeSqlFenceF_nil]
    | cons c rest => simp at h1
  | succ n ih =>
    intro m l h1 h2
    cases l with
    | nil => rw [removeSqlFenceF_nil, removeSqlFenceF_nil]
    | cons c rest =>
      cases m with
      | zero => simp at h2
      | succ m =>
        simp only [List.length_cons] at h1 h2
        rcases rest with _ | ⟨c2, _ | ⟨c3, _ | ⟨c4, _ | ⟨c5, _ | ⟨c6, rest2⟩⟩⟩⟩⟩
        · show c :: removeSqlFenceF n [] = c :: removeSqlFenceF m []
          rw [removeSqlFenceF_nil, removeSqlFenceF_nil]
        · show c :: removeSqlFenceF n [c2] = c :: removeSqlFenceF m [c2]
          rw [ih m [c2] (by simp at h1 ⊢; omega) (by simp at h2 ⊢; omega)]
        · show c :: removeSqlFenceF n [c2, c3] = c :: removeSqlFenceF m [c2, c3]
          rw [ih m [c2, c3] (by simp at h1 ⊢; omega) (by simp at h2 ⊢; omega)]
        · show c :: removeSqlFenceF n [c2, c3, c4] = c :: removeSqlFenceF m [c2, c3, c4]
          rw [ih m [c2, c3, c4] (by simp at h1 ⊢; omega) (by simp at h2 ⊢; omega)]
        · show c :: removeSqlFenceF n [c2, c3, c4, c5] = c :: removeSqlFenceF m [c2, c3, c4, c5]
          rw [ih m [c2, c3, c4, c5] (by simp at h1 ⊢; omega) (by simp at h2 ⊢; omega)]
        · show (if isTick c && isTick c2 && isTick c3 &&
                   (c4.toLower == 's') && (c5.toLower == 'q') && (c6.toLower == 'l')
                then removeSqlFenceF n rest2
                else c :: removeSqlFenceF n (c2 :: c3 :: c4 :: c5 :: c6 :: rest2)) =
               (if isTick c && isTick c2 && isTick c3 &&
                   (c4.toLower == 's') && (c5.toLower == 'q') && (c6.toLower == 'l')
                then removeSqlFenceF m rest2
                else c :: removeSqlFenceF m (c2 :: c3 :: c4 :: c5 :: c6 :: rest2))
          split
          · exact ih m rest2 (by simp at h1 ⊢; omega) (by simp at h2 ⊢; omega)
          · rw [ih m (c2 :: c3 :: c4 :: c5 :: c6 :: rest2)
              (by simp at h1 ⊢; omega) (by simp at h2 ⊢; omega)]

theorem removeTicks_nil : removeTicks [] = [] := rfl

theorem removeTicks_one (c : Char) : removeTicks [c] = [c] := rfl

theorem removeTicks_two (c c2 : Char) : removeTicks [c, c2] = [c, c2] := rfl

theorem removeTicks_cons3 (c c2 c3 : Char) (r : List Char) :
    removeTicks (c :: c2 :: c3 :: r) =
      if isTick c && isTick c2 && isTick c3 then removeTicks r
      else c :: removeTicks (c2 :: c3 :: r) := by
  have h1 : removeTicks (c :: c2 :: c3 :: r) =
      (if isTick c && isTick c2 && isTick c3 then removeTicksF (r.length + 2) r
       else c :: removeTicksF (r.length + 2) (c2 :: c3 :: r)) := rfl
  rw [h1]
  by_cases h : (isTick c && isTick c2 && isTick c3) = true
  · rw [if_pos h, if_pos h,
      removeTicksF_irrel (r.length + 2) r.length r (by omega) (le_refl _)]
    rfl
  · rw [if_neg h, if_neg h]
    rfl

theorem removeSqlFence_nil : removeSqlFence [] = [] := rfl

theorem removeSqlFence_short (c : Char) (rest : List Char) (h : rest.length ≤ 4) :
    removeSqlFence (c :: rest) = c :: removeSqlFence rest := by
  rcases rest with _ | ⟨c2, _ | ⟨c3, _ | ⟨c4, _ | ⟨c5, _ | ⟨c6, rest2⟩⟩⟩⟩⟩
  · rfl
  · rfl
  · rfl
  · rfl
  · rfl
  · simp at h

theorem removeSqlFence_cons6 (c c2 c3 c4 c5 c6 : Char) (r : List Char) :
    removeSqlFence (c :: c2 :: c3 :: c4 :: c5 :: c6 :: r) =
      if isTick c && isTick c2 && isTick c3 &&
         (c4.toLower == 's') && (c5.toLower == 'q') && (c6.toLower == 'l')
      then removeSqlFence r
      else c :: removeSqlFence (c2 :: c3 :: c4 :: c5 :: c6 :: r) := by
  have h1 : removeSqlFence (c :: c2 :: c3 :: c4 :: c5 :: c6 :: r) =
      (if isTick c && isTick c2 && isTick c3 &&
          (c4.toLower == 's') && (c5.toLower == 'q') && (c6.toLower == 'l')
       then removeSqlFenceF (r.length + 5) r
       else c :: removeSqlFenceF (r.length + 5) (c2 :: c3 :: c4 :: c5 :: c6 :: r)) := rfl
  rw [h1]
  by_cases h : (isTick c && isTick c2 && isTick c3 &&
      (c4.toLower == 's') && (c5.toLower == 'q') && (c6.toLower == 'l')) = true
  · rw [if_pos h, if_pos h,
      removeSqlFenceF_irrel (r.length + 5) r.length r (by omega) (le_refl _)]
    rfl
  · rw [if_neg h, if_neg h]
    rfl

/-! ### Substring and strip lemmas -/

theorem beqc (x y : Char) : (x == y) = (y == x) := by
  by_cases h : x = y
  · subst h; rfl
  · have h1 : (x == y) = false := by
      simp only [beq_eq_false_iff_ne, ne_eq]
      exact h
    have h2 : (y == x) = false := by
      simp only [beq_eq_false_iff_ne, ne_eq]
      exact fun e => h e.symm
    rw [h1, h2]

theorem fence3_eq : fence3 = [btick, btick, btick] := by decide

theorem ipo_ext : ∀ (p u v : List Char), p.isPrefixOf u = true → p.isPrefixOf (u ++ v) = true := by
  intro p
  induction p with
  | nil => intro u v _; simp [List.isPrefixOf]
  | cons a p' ih =>
    intro u v h
    cases u with
    | nil => simp [List.isPrefixOf] at h
    | cons b u' =>
      simp only [List.isPrefixOf, Bool.and_eq_true] at h
      simp only [List.cons_append, List.isPrefixOf, Bool.and_eq_true]
      exact ⟨h.1, ih u' v h.2⟩

theorem cs_nilpat : ∀ v : List Char, containsSub [] v = true := by
  intro v; cases v <;> simp [containsSub, List.isPrefixOf, List.isEmpty]

theorem cs_extend_right : ∀ (p u v : List Char), containsSub p u = true → containsSub p (u ++ v) = true := by
  intro p u
  induction u with
  | nil =>
    intro v h
    have hp : p = [] := by
      cases p with
      | nil => rfl
      | cons a p' => simp [containsSub, List.isEmpty] at h
    subst hp
    simp [cs_nilpat]
  | cons b u' ih =>
    intro v h
    simp only [containsSub, Bool.or_eq_true] at h
    rcases h with h | h
    · simp only [List.cons_append, containsSub, Bool.or_eq_true]
      exact Or.inl (ipo_ext p (b :: u') v h)
    · simp only [List.cons_append, containsSub, Bool.or_eq_true]
      exact Or.inr (ih v h)

theorem cs_suffix : ∀ (p a b : List Char), containsSub p b = true → containsSub p (a ++ b) = true := by
  intro p a
  induction a with
  | nil => intro b h; simpa using h
  | cons x a' ih =>
    intro b h
    simp only [List.cons_append, containsSub, Bool.or_eq_true]
    exact Or.inr (ih b h)

theorem cs_infix : ∀ (p a m b : List Char),
    containsSub p m = true → containsSub p (a ++ m ++ b) = true := by
  intro p a m b h
  rw [List.append_assoc]
  exact cs_suffix p a (m ++ b) (cs_extend_right p m b h)

theorem strip_decomp : ∀ l : List Char, ∃ a b, l = a ++ stripChars l ++ b := by
  intro l
  refine ⟨l.takeWhile isSpace, ((l.dropWhile isSpace).reverse.takeWhile isSpace).reverse, ?_⟩
  have hm : l.takeWhile isSpace ++ l.dropWhile isSpace = l :=
    List.takeWhile_append_dropWhile isSpace l
  conv_lhs => rw [← hm]
  rw [List.append_assoc]
  congr 1
  unfold stripChars dropTrailing
  have h2 : (l.dropWhile isSpace).reverse.takeWhile isSpace ++
      (l.dropWhile isSpace).reverse.dropWhile isSpace = (l.dropWhile isSpace).reverse :=
    List.takeWhile_append_dropWhile isSpace (l.dropWhile isSpace).reverse
  calc l.dropWhile isSpace = (l.dropWhile isSpace).reverse.reverse := (List.reverse_reverse _).symm
    _ = ((l.dropWhile isSpace).reverse.takeWhile isSpace ++
          (l.dropWhile isSpace).reverse.dropWhile isSpace).reverse := by rw [h2]
    _ = ((l.dropWhile isSpace).reverse.dropWhile isSpace).reverse ++
          ((l.dropWhile isSpace).reverse.takeWhile isSpace).reverse := by
            rw [List.reverse_append]

theorem cs_strip_false (p l : List Char) (h : containsSub p l = false) :
    containsSub p (stripChars l) = false := by
  cases h2 : containsSub p (stripChars l) with
  | false => rfl
  | true =>
    obtain ⟨a, b, hd⟩ := strip_decomp l
    rw [hd, cs_infix p a (stripChars l) b h2] at h
    exact absurd h (by simp)

theorem dw_head_false (f : Char → Bool) : ∀ (l : List Char) c rest,
    l.dropWhile f = c :: rest → f c = false := by
  intro l
  induction l with
  | nil => intro c rest h; simp [List.dropWhile] at h
  | cons a t ih =>
    intro c rest h
    by_cases ha : f a = true
    · rw [List.dropWhile_cons, if_pos ha] at h
      exact ih c rest h
    · rw [List.dropWhile_cons, if_neg ha] at h
      cases h
      simpa using ha

theorem dw_idem (f : Char → Bool) : ∀ l : List Char,
    (l.dropWhile f).dropWhile f = l.dropWhile f := by
  intro l
  cases h : l.dropWhile f with
  | nil => rfl
  | cons c rest =>
    rw [List.dropWhile_cons, if_neg (by simp [dw_head_false f l c rest h])]

theorem stripChars_idem : ∀ l : List Char, stripChars (stripChars l) = stripChars l := by
  intro l
  unfold stripChars
  have key : (dropTrailing isSpace (l.dropWhile isSpace)).dropWhile isSpace =
      dropTrailing isSpace (l.dropWhile isSpace) := by
    cases hm : dropTrailing isSpace (l.dropWhile isSpace) with
    | nil => rfl
    | cons c rest =>
      have hpre : ∃ b, l.dropWhile isSpace = (c :: rest) ++ b := by
        refine ⟨((l.dropWhile isSpace).reverse.takeWhile isSpace).reverse, ?_⟩
        rw [← hm]
        unfold dropTrailing
        have h2 : (l.dropWhile isSpace).reverse.takeWhile isSpace ++
            (l.dropWhile isSpace).reverse.dropWhile isSpace = (l.dropWhile isSpace).reverse :=
          List.takeWhile_append_dropWhile isSpace (l.dropWhile isSpace).reverse
        calc l.dropWhile isSpace = (l.dropWhile isSpace).reverse.reverse :=
              (List.reverse_reverse _).symm
          _ = ((l.dropWhile isSpace).reverse.takeWhile isSpace ++
                (l.dropWhile isSpace).reverse.dropWhile isSpace).reverse := by rw [h2]
          _ = ((l.dropWhile isSpace).reverse.dropWhile isSpace).reverse ++
                ((l.dropWhile isSpace).reverse.takeWhile isSpace).reverse := by
                  rw [List.reverse_append]
      obtain ⟨b, hb⟩ := hpre
      have hc : isSpace c = false := dw_head_false isSpace l c (rest ++ b) (by simpa using hb)
      rw [List.dropWhile_cons, if_neg (by simp [hc])]
  rw [key]
  unfold dropTrailing
  rw [List.reverse_reverse, dw_idem]

/-! ### The scanners leave no fence and do not touch fence-free input -/

theorem cs_cons (p : List Char) (c : Char) (l : List Char) :
    containsSub p (c :: l) = (p.isPrefixOf (c :: l) || containsSub p l) := rfl

theorem ipo_f3_one (x : Char) : fence3.isPrefixOf [x] = false := by
  rw [fence3_eq]
  show (btick == x && List.isPrefixOf [btick, btick] ([] : List Char)) = false
  rw [show List.isPrefixOf [btick, btick] ([] : List Char) = false from rfl, Bool.and_false]

theorem ipo_f3_two (x y : Char) : fence3.isPrefixOf [x, y] = false := by
  rw [fence3_eq]
  show (btick == x && (btick == y && List.isPrefixOf [btick] ([] : List Char))) = false
  rw [show List.isPrefixOf [btick] ([] : List Char) = false from rfl, Bool.and_false,
    Bool.and_false]

theorem ipo_f3_head (x : Char) (l : List Char) (h : isTick x = false) :
    fence3.isPrefixOf (x :: l) = false := by
  rw [fence3_eq]
  show (btick == x && List.isPrefixOf [btick, btick] l) = false
  rw [beqc btick x]
  unfold isTick at h
  rw [h, Bool.false_and]

theorem ipo_f3_second (x y : Char) (l : List Char) (h : isTick y = false) :
    fence3.isPrefixOf (x :: y :: l) = false := by
  rw [fence3_eq]
  show (btick == x && (btick == y && List.isPrefixOf [btick] l)) = false
  rw [beqc btick y]
  unfold isTick at h
  rw [h, Bool.false_and, Bool.and_false]

theorem ipo_f3_third (x y z : Char) (l : List Char) (h : isTick z = false) :
    fence3.isPrefixOf (x :: y :: z :: l) = false := by
  rw [fence3_eq]
  show (btick == x && (btick == y && (btick == z && List.isPrefixOf [] l))) = false
  rw [beqc btick z]
  unfold isTick at h
  rw [h, Bool.false_and, Bool.and_false, Bool.and_false]

theorem ipo_f3_true (x y z : Char) (l : List Char)
    (h : (isTick x && isTick y && isTick z) = true) :
    fence3.isPrefixOf (x :: y :: z :: l) = true := by
  simp only [Bool.and_eq_true] at h
  obtain ⟨⟨hx, hy⟩, hz⟩ := h
  unfold isTick at hx hy hz
  rw [fence3_eq]
  show (btick == x && (btick == y && (btick == z && List.isPrefixOf [] l))) = true
  rw [beqc btick x, beqc btick y, beqc btick z, hx, hy, hz,
    show List.isPrefixOf ([] : List Char) l = true from by cases l <;> rfl]
  rfl

theorem removeTicks_head (a : Char) (l : List Char) (h : isTick a = false) :
    removeTicks (a :: l) = a :: removeTicks l := by
  rcases l with _ | ⟨b, _ | ⟨c, r⟩⟩
  · rw [removeTicks_one, removeTicks_nil]
  · rw [removeTicks_two, removeTicks_one]
  · rw [removeTicks_cons3, if_neg (by simp [h])]

theorem removeTicks_noFence : ∀ l : List Char, containsSub fence3 (removeTicks l) = false := by
  suffices H : ∀ n (l : List Char), l.length ≤ n →
      containsSub fence3 (removeTicks l) = false from
    fun l => H l.length l (le_refl _)
  intro n
  induction n with
  | zero =>
    intro l h
    cases l with
    | nil => rfl
    | cons c rest => simp at h
  | succ n ih =>
    intro l h
    rcases l with _ | ⟨c, _ | ⟨c2, _ | ⟨c3, r⟩⟩⟩
    · rfl
    · rw [removeTicks_one, cs_cons, ipo_f3_one c]
      rfl
    · rw [removeTicks_two, cs_cons, ipo_f3_two c c2, cs_cons, ipo_f3_one c2]
      rfl
    · rw [removeTicks_cons3]
      by_cases hc : (isTick c && isTick c2 && isTick c3) = true
      · rw [if_pos hc]
        exact ih r (by simp at h ⊢; omega)
      · rw [if_neg hc]
        have hTail : containsSub fence3 (removeTicks (c2 :: c3 :: r)) = false :=
          ih (c2 :: c3 :: r) (by simp at h ⊢; omega)
        have hpre : fence3.isPrefixOf (c :: removeTicks (c2 :: c3 :: r)) = false := by
          cases hc1 : isTick c with
          | false => exact ipo_f3_head c _ hc1
          | true =>
            cases hc2 : isTick c2 with
            | false =>
              rw [removeTicks_head c2 _ hc2]
              exact ipo_f3_second c c2 _ hc2
            | true =>
              have hc3 : isTick c3 = false := by
                cases hc3 : isTick c3 with
                | false => rfl
                | true => exact absurd (by rw [hc1, hc2, hc3]; rfl) hc
              rcases r with _ | ⟨c4, r2⟩
              · rw [removeTicks_two]
                exact ipo_f3_third c c2 c3 [] hc3
              · rw [removeTicks_cons3, if_neg (by simp [hc3]), removeTicks_head c3 _ hc3]
                exact ipo_f3_third c c2 c3 _ hc3
        rw [cs_cons, hpre, hTail]
        rfl

theorem removeTicks_id_of_noFence : ∀ l : List Char,
    containsSub fence3 l = false → removeTicks l = l := by
  intro l
  induction l with
  | nil => intro _; rfl
  | cons c rest ih =>
    intro h
    rw [cs_cons] at h
    have hpre : fence3.isPrefixOf (c :: rest) = false := by
      cases hx : fence3.isPrefixOf (c :: rest) with
      | false => rfl
      | true => rw [hx] at h; simp at h
    have h2 : containsSub fence3 rest = false := by
      cases hx : containsSub fence3 rest with
      | false => rfl
      | true => rw [hx] at h; simp at h
    rcases rest with _ | ⟨c2, _ | ⟨c3, r⟩⟩
    · exact removeTicks_one c
    · exact removeTicks_two c c2
    · have hcond : ¬ ((isTick c && isTick c2 && isTick c3) = true) := by
        intro hcond
        rw [ipo_f3_true c c2 c3 r hcond] at hpre
        exact absurd hpre (by simp)
      rw [removeTicks_cons3, if_neg hcond, ih h2]

theorem removeSqlFence_id_of_noFence : ∀ l : List Char,
    containsSub fence3 l = false → removeSqlFence l = l := by
  intro l
  induction l with
  | nil => intro _; rfl
  | cons c rest ih =>
    intro h
    rw [cs_cons] at h
    have hpre : fence3.isPrefixOf (c :: rest) = false := by
      cases hx : fence3.isPrefixOf (c :: rest) with
      | false => rfl
      | true => rw [hx] at h; simp at h
    have h2 : containsSub fence3 rest = false := by
      cases hx : containsSub fence3 rest with
      | false => rfl
      | true => rw [hx] at h; simp at h
    rcases rest with _ | ⟨c2, _ | ⟨c3, _ | ⟨c4, _ | ⟨c5, _ | ⟨c6, r⟩⟩⟩⟩⟩
    · rw [removeSqlFence_short c [] (by simp), removeSqlFence_nil]
    · rw [removeSqlFence_short c [c2] (by simp), ih h2]
    · rw [removeSqlFence_short c [c2, c3] (by simp), ih h2]
    · rw [removeSqlFence_short c [c2, c3, c4] (by simp), ih h2]
    · rw [removeSqlFence_short c [c2, c3, c4, c5] (by simp), ih h2]
    · have hcond : ¬ ((isTick c && isTick c2 && isTick c3 &&
          (c4.toLower == 's') && (c5.toLower == 'q') && (c6.toLower == 'l')) = true) := by
        intro hcond
        simp only [Bool.and_eq_true] at hcond
        obtain ⟨⟨⟨⟨⟨ha, hb⟩, hc3⟩, _⟩, _⟩, _⟩ := hcond
        have h3 : (isTick c && isTick c2 && isTick c3) = true := by
          rw [ha, hb, hc3]; rfl
        rw [ipo_f3_true c c2 c3 _ h3] at hpre
        exact absurd hpre (by simp)
      rw [removeSqlFence_cons6, if_neg hcond, ih h2]

/-- Claim C3: `clean_sql` maps the fenced input to exactly `SELECT 1`, and any
input containing no code-fence marker is returned stripped of surrounding
whitespace but otherwise unchanged. -/
theorem c3_clean_sql :
    clean_sql (ofStr "```sql\nSELECT 1\n```") = ofStr "SELECT 1" ∧
    ∀ s : List Char, containsSub fence3 s = false → clean_sql s = stripChars s := by
  constructor
  · decide
  · intro s h
    unfold clean_sql
    rw [removeSqlFence_id_of_noFence s h, removeTicks_id_of_noFence s h]

/-- Witness for C3 at a concrete fence-free input. -/
theorem c3_clean_sql_witness :
    clean_sql (ofStr "  SELECT 2  ") = stripChars (ofStr "  SELECT 2  ") :=
  c3_clean_sql.2 (ofStr "  SELECT 2  ") (by decide)

/-- Claim C10: for every input, the output of `clean_sql` contains no
occurrence of three consecutive backticks and equals its own whitespace-trim;
consequently a query that legitimately contains fence characters inside it is
silently altered (witnessed concretely). -/
theorem c10_clean_sql_invariants :
    (∀ s : List Char, containsSub fence3 (clean_sql s) = false ∧
      stripChars (clean_sql s) = clean_sql s) ∧
    clean_sql (ofStr "select ```x") = ofStr "select x" := by
  constructor
  · intro s
    constructor
    · exact cs_strip_false fence3 (removeTicks (removeSqlFence s))
        (removeTicks_noFence (removeSqlFence s))
    · exact stripChars_idem (removeTicks (removeSqlFence s))
  · decide

/-! ### Prompt-order, summarizer and pipeline claims -/

theorem ipo_refl : ∀ p : List Char, p.isPrefixOf p = true := by
  intro p
  induction p with
  | nil => rfl
  | cons a p' ih => simp [List.isPrefixOf, ih]

theorem cs_self : ∀ p : List Char, containsSub p p = true := by
  intro p
  cases p with
  | nil => rfl
  | cons a p' => rw [cs_cons, ipo_refl, Bool.true_or]

/-- Claim C4, counterexample: the claim puts the user's question last in the
generation prompt (fixed rules block first, question fourth and final), so the
prompt would end with the question; at question `"Z"`, schema `"S"`, the code's
prompt ends with the rules block's final newline, not with `"Z"`. -/
theorem c4_prompt_counterexample :
    (generate_prompt (ofStr "Z") (ofStr "S")).getLast? ≠ some (Char.ofNat 90) := by
  decide

/-- Claim C4, amended: the generation prompt is built deterministically as a
concatenation in this order: a fixed intro header, the schema, a fixed task
preamble, the user's question, and then the fixed instruction block of
SQL-dialect rules; no few-shot block exists (the generator takes no example
set), and equal `(question, schema)` inputs yield an identical prompt. -/
theorem c4_prompt_amended : ∀ q s : List Char,
    generate_prompt q s = gpIntro ++ s ++ gpTask ++ q ++ gpRules ∧
    (∀ q' s' : List Char, q = q' → s = s' → generate_prompt q s = generate_prompt q' s') := by
  intro q s
  exact ⟨rfl, fun q' s' hq hs => by rw [hq, hs]⟩

/-- Witness for the amended C4 at concrete inputs. -/
theorem c4_prompt_amended_witness :
    generate_prompt (ofStr "Q") (ofStr "S") = generate_prompt (ofStr "Q") (ofStr "S") :=
  (c4_prompt_amended (ofStr "Q") (ofStr "S")).2 (ofStr "Q") (ofStr "S") rfl rfl

/-- Claim C7: the summarization prompt contains a rendering of at most the
first 15 rows of the result table — it depends on the table only through
`take 15`, so rows beyond the 15th never appear — together with the original
user question. -/
theorem c7_summary_prompt : ∀ (render : List Row → List Char) (q : List Char) (t : List Row),
    summaryPrompt render q t = summaryPrompt render q (t.take 15) ∧
    containsSub q (summaryPrompt render q t) = true ∧
    (∀ t' : List Row, t.take 15 = t'.take 15 →
      summaryPrompt render q t = summaryPrompt render q t') := by
  intro render q t
  refine ⟨?_, ?_, ?_⟩
  · unfold summaryPrompt
    simp [List.take_take]
  · have h := cs_infix q sp1 q (sp2 ++ render (t.take 15) ++ sp3) (cs_self q)
    unfold summaryPrompt
    simpa [List.append_assoc] using h
  · intro t' h
    unfold summaryPrompt
    rw [h]

/-- Witness for C7: a 16-row table and its 15-row truncation give the same prompt. -/
theorem c7_summary_prompt_witness :
    summaryPrompt (fun _ => []) (ofStr "q") (List.replicate 16 ([] : Row)) =
      summaryPrompt (fun _ => []) (ofStr "q") (List.replicate 15 ([] : Row)) :=
  (c7_summary_prompt (fun _ => []) (ofStr "q") (List.replicate 16 ([] : Row))).2.2
    (List.replicate 15 ([] : Row)) (by decide)

/-- Claim C8: whenever the LLM call inside the Answer Synthesizer raises, the
result is the fixed fallback answer string, not a propagated failure. -/
theorem c8_summary_fallback : ∀ (llm : List Char → Option (List Char))
    (render : List Row → List Char) (q : List Char) (t : List Row),
    llm (summaryPrompt render q t) = none →
    get_natural_language_response llm render q t = ofStr "Error generating response." := by
  intro llm render q t h
  unfold get_natural_language_response
  rw [h]

/-- Witness for C8 with an always-raising LLM. -/
theorem c8_summary_fallback_witness :
    get_natural_language_response (fun _ => none) (fun _ => []) [] [] =
      ofStr "Error generating response." :=
  c8_summary_fallback (fun _ => none) (fun _ => []) [] [] rfl

/-- Claim C2: the Query Executor runs only Approved queries — every query the
pipeline sends to the database is Approved; when the generated query is
Rejected, and in particular when the LLM invocation fails (the generator then
returns the empty string), no SQL is ever sent to the database. -/
theorem c2_executor_gate : ∀ (env : Env) (q s : List Char),
    (∀ e ∈ (runPipeline env q s).executed, classify e = QueryVerdict.Approved) ∧
    (classify (generate_sql_query env.llm q s) = QueryVerdict.Rejected →
      (runPipeline env q s).executed = []) ∧
    (env.llm (generate_prompt q s) = none → (runPipeline env q s).executed = []) := by
  intro env q s
  have hrej : classify (generate_sql_query env.llm q s) = QueryVerdict.Rejected →
      (runPipeline env q s).executed = [] := by
    intro hC
    simp [runPipeline, hC]
  refine ⟨?_, hrej, ?_⟩
  · intro e he
    simp only [runPipeline] at he
    split at he
    · next hC =>
      split at he
      · simp at he
        rw [he]
        exact hC
      · simp at he
        rw [he]
        exact hC
    · simp at he
  · intro hllm
    apply hrej
    unfold generate_sql_query
    rw [hllm]
    decide

/-- Witness for C2: with an always-failing LLM nothing is executed. -/
theorem c2_executor_gate_witness : (runPipeline envNoLlm [] []).executed = [] :=
  (c2_executor_gate envNoLlm [] []).2.2 rfl

/-- Claim C6: the Answer Synthesizer is skipped exactly when the result table
is empty — an execution error yields the empty table and hence no synthesis,
and every non-empty result table is synthesized. -/
theorem c6_synthesis : ∀ (env : Env) (q s : List Char),
    ((runPipeline env q s).answer = none ↔ (runPipeline env q s).resultRows = []) ∧
    (classify (generate_sql_query env.llm q s) = QueryVerdict.Approved →
      env.dbExec (generate_sql_query env.llm q s) = none →
      (runPipeline env q s).answer = none) ∧
    (∀ rows : List Row, classify (generate_sql_query env.llm q s) = QueryVerdict.Approved →
      env.dbExec (generate_sql_query env.llm q s) = some rows → rows ≠ [] →
      (runPipeline env q s).answer =
        some (get_natural_language_response env.llm env.render q rows)) := by
  intro env q s
  by_cases hC : classify (generate_sql_query env.llm q s) = QueryVerdict.Approved
  · cases henv : env.dbExec (generate_sql_query env.llm q s) with
    | none =>
      refine ⟨?_, fun _ _ => ?_, ?_⟩
      · simp [runPipeline, hC, henv]
      · simp [runPipeline, hC, henv]
      · intro rows _ hsome _
        exact Option.noConfusion hsome
    | some rows =>
      refine ⟨?_, fun _ hnone => ?_, ?_⟩
      · cases rows with
        | nil => simp [runPipeline, hC, henv]
        | cons r rs => simp [runPipeline, hC, henv]
      · exact Option.noConfusion hnone
      · intro rows' _ hsome hne
        injection hsome with hr
        subst hr
        cases rows with
        | nil => exact absurd rfl hne
        | cons r rs => simp [runPipeline, hC, henv]
  · refine ⟨?_, fun h _ => absurd h hC, fun _ h _ _ => absurd h hC⟩
    simp [runPipeline, hC]

/-- Witness for C6: an approved query returning one row gets a synthesized answer. -/
theorem c6_synthesis_witness :
    (runPipeline envSel [] []).answer =
      some (get_natural_language_response envSel.llm envSel.render [] [[ofStr "42"]]) :=
  (c6_synthesis envSel [] []).2.2 [[ofStr "42"]] (by decide) rfl (by decide)

/-! ### Example store claims -/

/-- Claim C9: few-shot example loading is tolerant — a missing file yields an
empty sequence without raising; an unparseable file yields an empty sequence
and a reported warning; a file with one well-formed and one field-missing
entry yields exactly one usable example; and well-formed entries are kept in
file order (cons-step characterization) while field-missing entries are
skipped individually. -/
theorem c9_load_examples :
    (loadExamples FewShotFile.missing = ([], false)) ∧
    (loadExamples FewShotFile.malformed = ([], true)) ∧
    (∀ q s q2 : List Char,
      (loadExamples (FewShotFile.parsed [(some q, some s), (some q2, none)])).1 =
        [⟨q, s⟩]) ∧
    (∀ e es ex, entryToExample e = some ex →
      (loadExamples (FewShotFile.parsed (e :: es))).1 =
        ex :: (loadExamples (FewShotFile.parsed es)).1) ∧
    (∀ e es, entryToExample e = none →
      (loadExamples (FewShotFile.parsed (e :: es))).1 =
        (loadExamples (FewShotFile.parsed es)).1) := by
  refine ⟨rfl, rfl, ?_, ?_, ?_⟩
  · intro q s q2
    rfl
  · intro e es ex h
    simp [loadExamples, List.filterMap_cons, h]
  · intro e es h
    simp [loadExamples, List.filterMap_cons, h]

/-- Witness for C9: a concrete well-formed entry is kept, in order. -/
theorem c9_load_examples_witness :
    (loadExamples (FewShotFile.parsed [(some (ofStr "q"), some (ofStr "select 1"))])).1 =
      ⟨ofStr "q", ofStr "select 1"⟩ :: (loadExamples (FewShotFile.parsed [])).1 :=
  c9_load_examples.2.2.2.1 (some (ofStr "q"), some (ofStr "select 1")) []
    ⟨ofStr "q", ofStr "select 1"⟩ rfl

/-! ### Schema introspector: chunk decomposition -/

theorem chunks_cons (x : SchemaRow) (xs : List SchemaRow) :
    chunks (x :: xs) = match chunks xs with
      | [] => [[x]]
      | [] :: rest => [x] :: rest
      | (y :: ys) :: rest =>
        if x.1 = y.1 then (x :: y :: ys) :: rest else [x] :: (y :: ys) :: rest := rfl

theorem chunks_cons_nil (x : SchemaRow) (xs : List SchemaRow) (h : chunks xs = []) :
    chunks (x :: xs) = [[x]] := by
  rw [chunks_cons, h]

theorem chunks_cons_merge (x y : SchemaRow) (ys : List SchemaRow)
    (rest : List (List SchemaRow)) (xs : List SchemaRow)
    (h : chunks xs = (y :: ys) :: rest) (hy : x.1 = y.1) :
    chunks (x :: xs) = (x :: y :: ys) :: rest := by
  rw [chunks_cons, h]
  exact if_pos hy

theorem chunks_cons_new (x y : SchemaRow) (ys : List SchemaRow)
    (rest : List (List SchemaRow)) (xs : List SchemaRow)
    (h : chunks xs = (y :: ys) :: rest) (hy : ¬ x.1 = y.1) :
    chunks (x :: xs) = [x] :: (y :: ys) :: rest := by
  rw [chunks_cons, h]
  exact if_neg hy

theorem chunks_ne_nil (x : SchemaRow) (xs : List SchemaRow) : chunks (x :: xs) ≠ [] := by
  cases h : chunks xs with
  | nil => rw [chunks_cons_nil x xs h]; simp
  | cons b rest =>
    cases b with
    | nil => rw [chunks_cons, h]; simp
    | cons y ys =>
      by_cases hy : x.1 = y.1
      · rw [chunks_cons_merge x y ys rest xs h hy]; simp
      · rw [chunks_cons_new x y ys rest xs h hy]; simp

theorem chunks_nil_inv (xs : List SchemaRow) (h : chunks xs = []) : xs = [] := by
  cases xs with
  | nil => rfl
  | cons a as => exact absurd h (chunks_ne_nil a as)

theorem chunks_no_nilmem : ∀ rows : List SchemaRow, ¬ ([] ∈ chunks rows) := by
  intro rows
  induction rows with
  | nil => simp [chunks]
  | cons x xs ih =>
    cases h : chunks xs with
    | nil => rw [chunks_cons_nil x xs h]; simp
    | cons b rest =>
      cases b with
      | nil =>
        exact absurd (by rw [h]; exact List.mem_cons_self [] rest) ih
      | cons y ys =>
        by_cases hy : x.1 = y.1
        · rw [chunks_cons_merge x y ys rest xs h hy]
          intro hmem
          rcases List.mem_cons.mp hmem with heq | hmem2
          · exact List.noConfusion heq
          · exact ih (by rw [h]; exact List.mem_cons_of_mem _ hmem2)
        · rw [chunks_cons_new x y ys rest xs h hy]
          intro hmem
          rcases List.mem_cons.mp hmem with heq | hmem2
          · exact List.noConfusion heq
          · exact ih (by rw [h]; exact hmem2)

theorem chunks_join : ∀ rows : List SchemaRow, catLists (chunks rows) = rows := by
  intro rows
  induction rows with
  | nil => rfl
  | cons x xs ih =>
    cases h : chunks xs with
    | nil =>
      rw [chunks_cons_nil x xs h, chunks_nil_inv xs h]
      rfl
    | cons b rest =>
      cases b with
      | nil => exact absurd (by rw [h]; exact List.mem_cons_self [] rest) (chunks_no_nilmem xs)
      | cons y ys =>
        rw [h] at ih
        by_cases hy : x.1 = y.1
        · rw [chunks_cons_merge x y ys rest xs h hy]
          show (x :: y :: ys) ++ catLists rest = x :: xs
          rw [← ih]
          rfl
        · rw [chunks_cons_new x y ys rest xs h hy]
          show [x] ++ ((y :: ys) ++ catLists rest) = x :: xs
          rw [← ih]
          rfl

theorem chunks_uniform : ∀ rows : List SchemaRow, ∀ b ∈ chunks rows,
    b ≠ [] ∧ ∀ p ∈ b, p.1 = headTable b := by
  intro rows
  induction rows with
  | nil => intro b hb; simp [chunks] at hb
  | cons x xs ih =>
    intro b hb
    cases h : chunks xs with
    | nil =>
      rw [chunks_cons_nil x xs h] at hb
      simp at hb
      subst hb
      refine ⟨by simp, ?_⟩
      intro p hp
      simp at hp
      subst hp
      rfl
    | cons c rest =>
      cases c with
      | nil => exact absurd (by rw [h]; exact List.mem_cons_self [] rest) (chunks_no_nilmem xs)
      | cons y ys =>
        by_cases hy : x.1 = y.1
        · rw [chunks_cons_merge x y ys rest xs h hy] at hb
          rcases List.mem_cons.mp hb with heq | hmem2
          · subst heq
            have hys := ih (y :: ys) (by rw [h]; exact List.mem_cons_self _ _)
            refine ⟨by simp, ?_⟩
            intro p hp
            rcases List.mem_cons.mp hp with hpx | hpm
            · subst hpx; rfl
            · show p.1 = x.1
              rw [hy]
              exact hys.2 p hpm
          · exact ih b (by rw [h]; exact List.mem_cons_of_mem _ hmem2)
        · rw [chunks_cons_new x y ys rest xs h hy] at hb
          rcases List.mem_cons.mp hb with heq | hmem2
          · subst heq
            refine ⟨by simp, ?_⟩
            intro p hp
            simp at hp
            subst hp
            rfl
          · exact ih b (by rw [h]; exact hmem2)

theorem chunks_chain : ∀ rows : List SchemaRow,
    List.Chain' (fun b1 b2 => headTable b1 ≠ headTable b2) (chunks rows) := by
  intro rows
  induction rows with
  | nil => simp [chunks]
  | cons x xs ih =>
    cases h : chunks xs with
    | nil => rw [chunks_cons_nil x xs h]; simp
    | cons c rest =>
      rw [h] at ih
      cases c with
      | nil => exact absurd (by rw [h]; exact List.mem_cons_self [] rest) (chunks_no_nilmem xs)
      | cons y ys =>
        by_cases hy : x.1 = y.1
        · rw [chunks_cons_merge x y ys rest xs h hy]
          rw [List.chain'_cons'] at ih ⊢
          refine ⟨?_, ih.2⟩
          intro z hz
          have hR := ih.1 z hz
          show headTable (x :: y :: ys) ≠ headTable z
          rw [show headTable (x :: y :: ys) = x.1 from rfl, hy]
          exact hR
        · rw [chunks_cons_new x y ys rest xs h hy]
          rw [List.chain'_cons']
          refine ⟨?_, ih⟩
          intro z hz
          simp at hz
          subst hz
          show headTable [x] ≠ headTable (y :: ys)
          simpa [headTable] using hy

/-! ### Schema introspector: the loop renders exactly the chunk blocks -/

theorem schemaLoop_cons (t c : List Char) (rest : List SchemaRow)
    (current : Option (List Char)) (acc : List Char) :
    schemaLoop ((t, c) :: rest) current acc =
      if some t ≠ current then
        schemaLoop rest (some t)
          (acc ++ (if current.isSome then [nlc] else []) ++ tableHdr t ++ colLine c)
      else schemaLoop rest current (acc ++ colLine c) := rfl

theorem schemaFrom_cons (t t' c : List Char) (rest : List SchemaRow) :
    schemaFrom t ((t', c) :: rest) =
      if t' ≠ t then [nlc] ++ tableHdr t' ++ colLine c ++ schemaFrom t' rest
      else colLine c ++ schemaFrom t rest := rfl

theorem schemaLoop_acc : ∀ (rows : List SchemaRow) (current : Option (List Char))
    (acc : List Char), schemaLoop rows current acc = acc ++ schemaLoop rows current [] := by
  intro rows
  induction rows with
  | nil => intro current acc; simp [schemaLoop]
  | cons rc rest ih =>
    intro current acc
    obtain ⟨t, c⟩ := rc
    rw [schemaLoop_cons, schemaLoop_cons]
    by_cases h : some t ≠ current
    · rw [if_pos h, if_pos h,
        ih (some t) (acc ++ (if current.isSome then [nlc] else []) ++ tableHdr t ++ colLine c),
        ih (some t) (([] : List Char) ++ (if current.isSome then [nlc] else []) ++
          tableHdr t ++ colLine c)]
      simp [List.append_assoc]
    · rw [if_neg h, if_neg h, ih current (acc ++ colLine c),
        ih current (([] : List Char) ++ colLine c)]
      simp [List.append_assoc]

theorem loop_from : ∀ (rows : List SchemaRow) (t : List Char),
    schemaLoop rows (some t) [] = schemaFrom t rows := by
  intro rows
  induction rows with
  | nil => intro t; rfl
  | cons rc rest ih =>
    intro t
    obtain ⟨t', c⟩ := rc
    rw [schemaLoop_cons, schemaFrom_cons]
    by_cases h : t' = t
    · rw [if_neg (by simp [h]), if_neg (by simp [h]), schemaLoop_acc, ih t]
      simp
    · rw [if_pos (by simp [h]), if_pos h, schemaLoop_acc, ih t']
      simp [List.append_assoc]

theorem get_schema_cons (t c : List Char) (rest : List SchemaRow) :
    get_schema ((t, c) :: rest) = tableHdr t ++ colLine c ++ schemaFrom t rest := by
  show schemaLoop ((t, c) :: rest) none [] = _
  rw [schemaLoop_cons, if_pos (by simp), schemaLoop_acc, loop_from]
  simp [List.append_assoc]

theorem sfs_of_chunks_nil (t : List Char) (rows : List SchemaRow)
    (h : chunks rows = []) : schemaFromSpec t rows = [] := by
  unfold schemaFromSpec
  rw [h]

theorem sfs_of_chunks_cons (t : List Char) (rows : List SchemaRow)
    (b : List SchemaRow) (bs : List (List SchemaRow)) (h : chunks rows = b :: bs) :
    schemaFromSpec t rows =
      (if headTable b = t then colsOf b else [nlc] ++ renderChunk b) ++
        tailJoin (bs.map renderChunk) := by
  unfold schemaFromSpec
  rw [h]

theorem schemaFrom_spec : ∀ (rows : List SchemaRow) (t : List Char),
    schemaFrom t rows = schemaFromSpec t rows := by
  intro rows
  induction rows with
  | nil => intro t; rfl
  | cons rc rest ih =>
    intro t
    obtain ⟨t', c⟩ := rc
    rw [schemaFrom_cons]
    cases h : chunks rest with
    | nil =>
      have hrest := chunks_nil_inv rest h
      subst hrest
      rw [sfs_of_chunks_cons t [(t', c)] [(t', c)] [] (chunks_cons_nil (t', c) [] rfl)]
      by_cases hq : t' = t
      · rw [if_neg (by simp [hq]), if_pos (by simp [headTable, hq])]
        simp [colsOf, catLists, tailJoin, schemaFrom]
      · rw [if_pos hq, if_neg (by simp [headTable, hq])]
        simp [renderChunk, colsOf, catLists, tailJoin, schemaFrom, List.append_assoc]
    | cons b bs =>
      cases b with
      | nil => exact absurd (by rw [h]; exact List.mem_cons_self [] bs) (chunks_no_nilmem rest)
      | cons y ys =>
        by_cases hy : t' = y.1
        · have hch := chunks_cons_merge (t', c) y ys bs rest h hy
          rw [sfs_of_chunks_cons t ((t', c) :: rest) ((t', c) :: y :: ys) bs hch]
          by_cases hq : t' = t
          · rw [if_neg (by simp [hq]), if_pos (by simp [headTable, hq])]
            rw [ih t, sfs_of_chunks_cons t rest (y :: ys) bs h,
              if_pos (by simp only [headTable]; rw [← hy]; exact hq)]
            simp [colsOf, catLists, List.append_assoc]
          · rw [if_pos hq, if_neg (by simp [headTable, hq])]
            rw [ih t', sfs_of_chunks_cons t' rest (y :: ys) bs h,
              if_pos (by simp only [headTable]; exact hy.symm)]
            simp [renderChunk, colsOf, catLists, List.append_assoc]
        · have hch := chunks_cons_new (t', c) y ys bs rest h hy
          rw [sfs_of_chunks_cons t ((t', c) :: rest) [(t', c)] ((y :: ys) :: bs) hch]
          by_cases hq : t' = t
          · rw [if_neg (by simp [hq]), if_pos (by simp [headTable, hq])]
            rw [ih t, sfs_of_chunks_cons t rest (y :: ys) bs h,
              if_neg (by simp only [headTable, ← hq]; exact fun e => hy e.symm)]
            simp [renderChunk, colsOf, catLists, tailJoin, List.map_cons, List.append_assoc]
          · rw [if_pos hq, if_neg (by simp [headTable, hq])]
            rw [ih t', sfs_of_chunks_cons t' rest (y :: ys) bs h,
              if_neg (by simp only [headTable]; exact fun e => hy e.symm)]
            simp [renderChunk, colsOf, catLists, tailJoin, List.map_cons, List.append_assoc]

theorem schema_render_eq : ∀ rows : List SchemaRow,
    get_schema rows = joinBlocks ((chunks rows).map renderChunk) := by
  intro rows
  cases rows with
  | nil => rfl
  | cons rc rest =>
    obtain ⟨t, c⟩ := rc
    rw [get_schema_cons, schemaFrom_spec]
    cases h : chunks rest with
    | nil =>
      have hrest := chunks_nil_inv rest h
      subst hrest
      rw [sfs_of_chunks_nil t [] rfl, chunks_cons_nil (t, c) [] rfl]
      simp [joinBlocks, renderChunk, colsOf, catLists, tailJoin]
    | cons b bs =>
      cases b with
      | nil => exact absurd (by rw [h]; exact List.mem_cons_self [] bs) (chunks_no_nilmem rest)
      | cons y ys =>
        rw [sfs_of_chunks_cons t rest (y :: ys) bs h]
        by_cases hy : t = y.1
        · rw [chunks_cons_merge (t, c) y ys bs rest h hy,
            if_pos (by simp only [headTable]; exact hy.symm)]
          simp [joinBlocks, renderChunk, colsOf, catLists, List.map_cons, List.append_assoc]
        · rw [chunks_cons_new (t, c) y ys bs rest h hy,
            if_neg (by simp only [headTable]; exact fun e => hy e.symm)]
          simp [joinBlocks, renderChunk, colsOf, catLists, tailJoin, List.map_cons,
            List.append_assoc]

/-- Claim C5: the rendered schema consists of one table block per maximal run
of consecutive catalog rows sharing a table name (blocks separated by a blank
line), each block listing exactly that run's columns in catalog order: the
chunk decomposition partitions the rows in order (so every table's declared
columns, and only those, appear under it), each chunk is a non-empty run of a
single table, and adjacent chunks have different tables (runs are maximal). -/
theorem c5_schema_blocks : ∀ rows : List SchemaRow,
    get_schema rows = joinBlocks ((chunks rows).map renderChunk) ∧
    catLists (chunks rows) = rows ∧
    (∀ b ∈ chunks rows, b ≠ [] ∧ ∀ p ∈ b, p.1 = headTable b) ∧
    List.Chain' (fun b1 b2 => headTable b1 ≠ headTable b2) (chunks rows) :=
  fun rows =>
    ⟨schema_render_eq rows, chunks_join rows, chunks_uniform rows, chunks_chain rows⟩

/-- Witness for C5 at three concrete catalog rows over two tables. -/
theorem c5_schema_blocks_witness :
    ([(ofStr "Album", ofStr "AlbumId"), (ofStr "Album", ofStr "Title")] : List SchemaRow) ≠ [] ∧
    ∀ p ∈ ([(ofStr "Album", ofStr "AlbumId"), (ofStr "Album", ofStr "Title")] : List SchemaRow),
      p.1 = headTable [(ofStr "Album", ofStr "AlbumId"), (ofStr "Album", ofStr "Title")] :=
  (c5_schema_blocks rowsEx).2.2.1
    [(ofStr "Album", ofStr "AlbumId"), (ofStr "Album", ofStr "Title")] (by decide)
